import Mathlib

/-!
Shallow embedding of the tauri-plugin-screen-lock-status core (src/lib.rs).

The plugin spawns one background monitor task (selected by target OS) that
observes the session lock state and emits a "lock"/"unlock" event to the
Tauri app handle stored in the write-once `WINDOW_TAURI` cell whenever the
state changes.  We model the three per-OS loop bodies as step functions over
an explicit state (the remembered `flg` boolean), the sequence of values the
OS delivers as an input list, and the `handle.emit` sink as a function whose
result is discarded (as `let _ = handle.emit(..)` does in the source).
-/

namespace ScreenLock

/-- The fixed event name used by every `handle.emit` call in src/lib.rs. -/
def eventName : String := "window_screen_lock_status://change_session_status"

/-- Payload chosen by the emit branches: `"lock"` when the new state is
locked (`true`), `"unlock"` when unlocked (`false`). -/
def payloadOf (locked : Bool) : String := if locked then "lock" else "unlock"

/-- One published event: the name passed to `handle.emit` and its string
payload. -/
structure Emission where
  name : String
  payload : String
deriving DecidableEq, Repr

/-- The ways a loop iteration of the Linux monitor can fail before producing
a reading: `Connection::system()` fails, `SessionProxyBlocking::new` fails,
`pro.get()` fails, or `property.next()` returns `None` (stream ended). -/
inductive SourceError where
  | connFail
  | proxyFail
  | propGetFail
  | streamEnd
deriving DecidableEq, Repr

/-- Result of one loop-body execution: the remembered state `flg` after the
iteration, the events emitted during it, and whether the loop continues
(`false` exactly when the Rust code executes `break`). -/
structure StepResult where
  flg : Bool
  emitted : List Emission
  keepGoing : Bool
deriving DecidableEq, Repr

/-- The State Debouncer contract of the spec, extracted from the
`if flg != current_property { flg = current_property; ... }` comparison that
both the Linux and macOS loop bodies perform. -/
def update (previous observed : Bool) : Option Bool :=
  if previous != observed then some observed else none

/-- One iteration of the Linux monitor loop (src/lib.rs lines 150-210).
`input` is what the iteration obtained from the source: a failure at any of
the four stages (each of which logs a warning and `break`s), or the current
`locked_hint` reading.  On a changed reading, `flg` is assigned first, then
`WINDOW_TAURI.get()` is consulted: `Some handle` emits `"lock"`/`"unlock"`
and discards the emit result, `None` logs a warning and `break`s. -/
def linuxStep (emitFn : String → String → Bool) (handleSet : Bool) (flg : Bool)
    (input : Except SourceError Bool) : StepResult :=
  match input with
  | Except.error _ => ⟨flg, [], false⟩
  | Except.ok current_property =>
    if flg ≠ current_property then
      if handleSet then
        if current_property then
          let _ := emitFn eventName "lock"
          ⟨current_property, [⟨eventName, "lock"⟩], true⟩
        else
          let _ := emitFn eventName "unlock"
          ⟨current_property, [⟨eventName, "unlock"⟩], true⟩
      else
        ⟨current_property, [], false⟩
    else
      ⟨flg, [], true⟩

/-- Final outcome of running a monitor loop over a list of per-iteration
inputs: remembered state, all events emitted in order, and whether the loop
is still running (it never broke). -/
structure RunResult where
  flg : Bool
  events : List Emission
  running : Bool
deriving DecidableEq, Repr

/-- The Linux monitor loop run over a finite list of per-iteration inputs,
starting from remembered state `flg` (`let mut flg = false;` at spawn).
Once an iteration `break`s, the remaining inputs are never consumed. -/
def linuxRun (emitFn : String → String → Bool) (handleSet : Bool) :
    Bool → List (Except SourceError Bool) → RunResult
  | flg, [] => ⟨flg, [], true⟩
  | flg, input :: rest =>
    let r := linuxStep emitFn handleSet flg input
    if r.keepGoing then
      let rr := linuxRun emitFn handleSet r.flg rest
      ⟨rr.flg, r.emitted ++ rr.events, rr.running⟩
    else
      ⟨r.flg, r.emitted, false⟩

/-- The lock-indicator key the macOS loop looks up in the session
dictionary. -/
def cgsLockKey : String := "CGSSessionScreenIsLocked"

/-- The macOS classification of a session-dictionary snapshot
(src/lib.rs lines 224-230): `session_dictionary.find(key)` returning
`Some(_)` means locked, `None` means unlocked; the associated value is
discarded by the wildcard pattern. -/
def classifyDict {V : Type} (dict : List (String × V)) : Bool :=
  match List.lookup cgsLockKey dict with
  | none => false
  | some _ => true

/-- One iteration of the macOS monitor loop (src/lib.rs lines 219-257):
take a fresh `CGSessionCopyCurrentDictionary()` snapshot, classify it by
presence of the lock key, then debounce / emit exactly as the Linux loop
does, including the `break` when `WINDOW_TAURI.get()` is `None`. -/
def macosStep (emitFn : String → String → Bool) (handleSet : Bool) (flg : Bool)
    (dict : List (String × String)) : StepResult :=
  let current_session_property := classifyDict dict
  if flg ≠ current_session_property then
    if handleSet then
      if current_session_property then
        let _ := emitFn eventName "lock"
        ⟨current_session_property, [⟨eventName, "lock"⟩], true⟩
      else
        let _ := emitFn eventName "unlock"
        ⟨current_session_property, [⟨eventName, "unlock"⟩], true⟩
    else
      ⟨current_session_property, [], false⟩
  else
    ⟨flg, [], true⟩

/-- The macOS monitor loop run over a list of dictionary snapshots, one per
iteration, starting from remembered state `flg` (`let mut flg = false;`). -/
def macosRun (emitFn : String → String → Bool) (handleSet : Bool) :
    Bool → List (List (String × String)) → RunResult
  | flg, [] => ⟨flg, [], true⟩
  | flg, dict :: rest =>
    let r := macosStep emitFn handleSet flg dict
    if r.keepGoing then
      let rr := macosRun emitFn handleSet r.flg rest
      ⟨rr.flg, r.emitted ++ rr.events, rr.running⟩
    else
      ⟨r.flg, r.emitted, false⟩

/-- A Windows message as seen by the message loop: the message id and its
`wParam` (session-change sub-code). -/
structure WinMsg where
  msg : Nat
  wParam : Nat
deriving DecidableEq, Repr

/-- `WM_WTSSESSION_CHANGE` message id (0x02B1). -/
def wmWtsSessionChange : Nat := 689

/-- `WTS_SESSION_LOCK` wParam sub-code (0x7). -/
def wtsSessionLock : Nat := 7

/-- `WTS_SESSION_UNLOCK` wParam sub-code (0x8). -/
def wtsSessionUnlock : Nat := 8

/-- The LockState value a Windows message announces, if any: `lock`
messages announce `true`, `unlock` messages `false`, everything else is
ignored by the loop. -/
def classifyMsg (m : WinMsg) : Option Bool :=
  if m.msg = wmWtsSessionChange then
    if m.wParam = wtsSessionLock then some true
    else if m.wParam = wtsSessionUnlock then some false
    else none
  else none

/-- The sequence of LockState values a list of Windows messages announces. -/
def windowsObserved (msgs : List WinMsg) : List Bool := msgs.filterMap classifyMsg

/-- Handling of one Windows message (src/lib.rs lines 111-141): on
`WM_WTSSESSION_CHANGE`, dispatch on `wParam`; the lock / unlock sub-codes
emit their event when the handle cell is filled (the failure arm only logs
a warning and the loop continues); other sub-codes and other messages do
nothing.  There is no remembered state in this variant. -/
def windowsStep (emitFn : String → String → Bool) (handleSet : Bool)
    (m : WinMsg) : List Emission :=
  if m.msg = wmWtsSessionChange then
    if m.wParam = wtsSessionLock then
      if handleSet then
        let _ := emitFn eventName "lock"
        [⟨eventName, "lock"⟩]
      else []
    else if m.wParam = wtsSessionUnlock then
      if handleSet then
        let _ := emitFn eventName "unlock"
        [⟨eventName, "unlock"⟩]
      else []
    else []
  else []

/-- The Windows message loop run over the delivered messages: every message
is processed and the loop never breaks on its own. -/
def windowsRun (emitFn : String → String → Bool) (handleSet : Bool) :
    List WinMsg → List Emission
  | [] => []
  | m :: rest => windowsStep emitFn handleSet m ++ windowsRun emitFn handleSet rest

/-- Number of adjacent differing pairs in `prev :: obs` — the number of
actual LockState transitions in an observation sequence starting from the
remembered state `prev`. -/
def countTransitions : Bool → List Bool → Nat
  | _, [] => 0
  | prev, b :: rest => (if prev ≠ b then 1 else 0) + countTransitions b rest

/-- The plugin value `init` returns to its caller:
`Builder::new("window_screen_lock_status").build()`. -/
structure Plugin where
  pluginName : String
deriving DecidableEq, Repr

/-- The per-iteration inputs the single spawned task will consume,
depending on which of the three mutually exclusive `cfg` blocks was
compiled for the target OS. -/
inductive TaskInputs where
  | windows (msgs : List WinMsg)
  | linux (inputs : List (Except SourceError Bool))
  | macos (dicts : List (List (String × String)))

/-- The full behavior of the one spawned monitor task: each variant starts
from remembered state `false` where it has one. -/
def runTask (emitFn : String → String → Bool) (handleSet : Bool) :
    TaskInputs → List Emission
  | TaskInputs.windows msgs => windowsRun emitFn handleSet msgs
  | TaskInputs.linux inputs => (linuxRun emitFn handleSet false inputs).events
  | TaskInputs.macos dicts => (macosRun emitFn handleSet false dicts).events

/-- The initialization entry point `init` (src/lib.rs lines 69-261): it
spawns exactly one background task (the variant compiled for the target
OS) and unconditionally returns the built plugin to the caller; nothing
the task later does reaches the caller. -/
def init (emitFn : String → String → Bool) (handleSet : Bool)
    (ti : TaskInputs) : Plugin × List (List Emission) :=
  (⟨"window_screen_lock_status"⟩, [runTask emitFn handleSet ti])

/-! Helper lemmas. -/

theorem payloadOf_ne (a b : Bool) (h : a ≠ b) : payloadOf a ≠ payloadOf b := by
  cases a <;> cases b <;> simp_all [payloadOf]

theorem payloadOf_cases (b : Bool) : payloadOf b = "lock" ∨ payloadOf b = "unlock" := by
  cases b <;> simp [payloadOf]

/-- Events the debounced loop body produces over an observation list, at the
specification level. -/
def emitsOf : Bool → List Bool → List Emission
  | _, [] => []
  | flg, b :: rest =>
    if flg ≠ b then ⟨eventName, payloadOf b⟩ :: emitsOf b rest
    else emitsOf flg rest

/-- Remembered state after an observation list. -/
def lastStateOf : Bool → List Bool → Bool
  | flg, [] => flg
  | _, b :: rest => lastStateOf b rest

theorem linuxRun_ok_eq (emitFn : String → String → Bool) :
    ∀ (obs : List Bool) (flg : Bool),
      linuxRun emitFn true flg (obs.map Except.ok) =
        ⟨lastStateOf flg obs, emitsOf flg obs, true⟩ := by
  intro obs
  induction obs with
  | nil => intro flg; rfl
  | cons b rest ih =>
    intro flg
    cases flg <;> cases b <;>
      simp [linuxRun, linuxStep, emitsOf, lastStateOf, ih, payloadOf]

theorem emitsOf_length :
    ∀ (obs : List Bool) (flg : Bool),
      (emitsOf flg obs).length = countTransitions flg obs := by
  intro obs
  induction obs with
  | nil => intro flg; rfl
  | cons b rest ih =>
    intro flg
    cases flg <;> cases b <;> simp [emitsOf, countTransitions, ih] <;> omega

theorem emitsOf_chain :
    ∀ (obs : List Bool) (flg : Bool),
      List.Chain' (fun a b => a ≠ b)
        (payloadOf flg :: (emitsOf flg obs).map Emission.payload) := by
  intro obs
  induction obs with
  | nil => intro flg; simp [emitsOf]
  | cons b rest ih =>
    intro flg
    by_cases hfb : flg = b
    · subst hfb
      simpa [emitsOf] using ih flg
    · have h1 : payloadOf flg ≠ payloadOf b := payloadOf_ne _ _ hfb
      simpa [emitsOf, hfb, List.chain'_cons] using ⟨h1, ih b⟩

theorem macosStep_eq_linuxStep (emitFn : String → String → Bool) (h flg : Bool)
    (dict : List (String × String)) :
    macosStep emitFn h flg dict =
      linuxStep emitFn h flg (Except.ok (classifyDict dict)) := rfl

theorem macosRun_eq_linuxRun (emitFn : String → String → Bool) (h : Bool) :
    ∀ (dicts : List (List (String × String))) (flg : Bool),
      macosRun emitFn h flg dicts =
        linuxRun emitFn h flg (dicts.map (fun d => Except.ok (classifyDict d))) := by
  intro dicts
  induction dicts with
  | nil => intro flg; rfl
  | cons d rest ih =>
    intro flg
    simp [macosRun, linuxRun, macosStep_eq_linuxStep, ih]

theorem windowsStep_length (emitFn : String → String → Bool) (m : WinMsg) :
    (windowsStep emitFn true m).length = ((classifyMsg m).toList).length := by
  unfold windowsStep classifyMsg
  split_ifs <;> simp_all

theorem windowsRun_length (emitFn : String → String → Bool) :
    ∀ msgs : List WinMsg,
      (windowsRun emitFn true msgs).length = (windowsObserved msgs).length := by
  intro msgs
  induction msgs with
  | nil => rfl
  | cons m rest ih =>
    have hm := windowsStep_length emitFn m
    cases hc : classifyMsg m <;>
      simp_all [windowsRun, windowsObserved, List.filterMap_cons]
    omega

theorem classifyDict_true_iff {V : Type} :
    ∀ dict : List (String × V),
      classifyDict dict = true ↔ cgsLockKey ∈ dict.map Prod.fst := by
  intro dict
  induction dict with
  | nil => simp [classifyDict]
  | cons p rest ih =>
    obtain ⟨k, v⟩ := p
    by_cases hk : cgsLockKey = k
    · subst hk
      simp [classifyDict, List.lookup]
    · have hk' : (cgsLockKey == k) = false := by simpa using hk
      simp only [classifyDict, List.lookup, hk', List.map_cons, List.mem_cons]
      rw [show (match List.lookup cgsLockKey rest with
            | none => false
            | some _ => true) = classifyDict rest from rfl]
      simp [ih, hk]

theorem classifyDict_map {V W : Type} (f : V → W) :
    ∀ dict : List (String × V),
      classifyDict (dict.map (fun p => (p.1, f p.2))) = classifyDict dict := by
  intro dict
  induction dict with
  | nil => rfl
  | cons p rest ih =>
    obtain ⟨k, v⟩ := p
    simp only [classifyDict, List.map_cons, List.lookup] at ih ⊢
    cases hk : (cgsLockKey == k) <;> simp [hk, ih]

theorem linuxRun_stops_at_error (emitFn : String → String → Bool) (handleSet : Bool)
    (err : SourceError) (post : List (Except SourceError Bool)) :
    ∀ (pre : List (Except SourceError Bool)) (flg : Bool),
      linuxRun emitFn handleSet flg (pre ++ Except.error err :: post) =
        linuxRun emitFn handleSet flg (pre ++ [Except.error err]) ∧
      (linuxRun emitFn handleSet flg (pre ++ [Except.error err])).running = false := by
  intro pre
  induction pre with
  | nil => intro flg; exact ⟨rfl, rfl⟩
  | cons i pre' ih =>
    intro flg
    have h1 := (ih (linuxStep emitFn handleSet flg i).flg).1
    have h2 := (ih (linuxStep emitFn handleSet flg i).flg).2
    cases hk : (linuxStep emitFn handleSet flg i).keepGoing
    · constructor <;> simp [linuxRun, hk]
    · constructor <;> simp [linuxRun, hk, h1, h2]

theorem linuxStep_emitted_shape (emitFn : String → String → Bool) (h flg : Bool)
    (input : Except SourceError Bool) (e : Emission) :
    e ∈ (linuxStep emitFn h flg input).emitted →
      e.name = eventName ∧ e.payload = payloadOf (linuxStep emitFn h flg input).flg := by
  cases input with
  | error err => simp [linuxStep]
  | ok b =>
    cases h <;> cases flg <;> cases b <;>
      · intro hmem
        simp_all [linuxStep, payloadOf]

theorem linuxRun_events_shape (emitFn : String → String → Bool) (h : Bool) :
    ∀ (inputs : List (Except SourceError Bool)) (flg : Bool) (e : Emission),
      e ∈ (linuxRun emitFn h flg inputs).events →
        e.name = eventName ∧ (e.payload = "lock" ∨ e.payload = "unlock") := by
  intro inputs
  induction inputs with
  | nil => intro flg e hmem; simp [linuxRun] at hmem
  | cons i rest ih =>
    intro flg e hmem
    cases hk : (linuxStep emitFn h flg i).keepGoing <;>
      simp only [linuxRun, hk, if_true, if_false, Bool.false_eq_true] at hmem
    · have hs := linuxStep_emitted_shape emitFn h flg i e hmem
      refine ⟨hs.1, ?_⟩
      rw [hs.2]
      exact payloadOf_cases _
    · rcases List.mem_append.mp hmem with hmem1 | hmem2
      · have hs := linuxStep_emitted_shape emitFn h flg i e hmem1
        refine ⟨hs.1, ?_⟩
        rw [hs.2]
        exact payloadOf_cases _
      · exact ih _ e hmem2

theorem windowsStep_shape (emitFn : String → String → Bool) (h : Bool) (m : WinMsg)
    (e : Emission) :
    e ∈ windowsStep emitFn h m →
      e.name = eventName ∧ (e.payload = "lock" ∨ e.payload = "unlock") := by
  unfold windowsStep
  split_ifs <;> intro hmem <;> simp_all [eventName]

theorem windowsRun_shape (emitFn : String → String → Bool) (h : Bool) :
    ∀ (msgs : List WinMsg) (e : Emission),
      e ∈ windowsRun emitFn h msgs →
        e.name = eventName ∧ (e.payload = "lock" ∨ e.payload = "unlock") := by
  intro msgs
  induction msgs with
  | nil => intro e hmem; simp [windowsRun] at hmem
  | cons m rest ih =>
    intro e hmem
    rcases List.mem_append.mp hmem with hmem1 | hmem2
    · exact windowsStep_shape emitFn h m e hmem1
    · exact ih e hmem2

/-! Claim theorems. -/

/-- C1 counterexample: the claim fails on the Windows variant, which keeps
no remembered state.  Two consecutive `WTS_SESSION_LOCK` messages make the
task observe the LockState sequence `[true, true]`; from the initial
remembered state `false` that sequence has one adjacent differing pair, but
the Windows message loop emits two events. -/
theorem c1_counterexample :
    ¬ ((windowsRun (fun _ _ => true) true
          [⟨wmWtsSessionChange, wtsSessionLock⟩, ⟨wmWtsSessionChange, wtsSessionLock⟩]).length =
        countTransitions false
          (windowsObserved
            [⟨wmWtsSessionChange, wtsSessionLock⟩, ⟨wmWtsSessionChange, wtsSessionLock⟩])) := by
  decide

/-- C1 (amended): in the Linux and macOS variants, which keep a remembered
state, the number of events emitted over any observation sequence (with the
handle set) equals the number of adjacent differing pairs starting from the
remembered state, and no two consecutive emissions carry the same payload;
the Windows variant instead emits exactly one event per recognized
session-change message, with no deduplication. -/
theorem c1_amended_debounce (emitFn : String → String → Bool) (flg : Bool)
    (obs : List Bool) (dicts : List (List (String × String))) (msgs : List WinMsg) :
    ((linuxRun emitFn true flg (obs.map Except.ok)).events.length =
      countTransitions flg obs) ∧
    List.Chain' (fun a b => a ≠ b)
      (payloadOf flg ::
        (linuxRun emitFn true flg (obs.map Except.ok)).events.map Emission.payload) ∧
    ((macosRun emitFn true flg dicts).events.length =
      countTransitions flg (dicts.map (fun d => classifyDict d))) ∧
    List.Chain' (fun a b => a ≠ b)
      (payloadOf flg :: (macosRun emitFn true flg dicts).events.map Emission.payload) ∧
    ((windowsRun emitFn true msgs).length = (windowsObserved msgs).length) := by
  have hl := linuxRun_ok_eq emitFn obs flg
  have hm : macosRun emitFn true flg dicts =
      linuxRun emitFn true flg ((dicts.map (fun d => classifyDict d)).map Except.ok) := by
    rw [macosRun_eq_linuxRun, List.map_map]
    rfl
  have hl2 := linuxRun_ok_eq emitFn (dicts.map (fun d => classifyDict d)) flg
  refine ⟨?_, ?_, ?_, ?_, windowsRun_length emitFn msgs⟩
  · rw [hl]; exact emitsOf_length obs flg
  · rw [hl]; exact emitsOf_chain obs flg
  · rw [hm, hl2]; exact emitsOf_length _ flg
  · rw [hm, hl2]; exact emitsOf_chain _ flg

/-- C2: the debounce comparison performed by the Linux and macOS loop
bodies, as the contract `update`, returns `some observed` iff the observed
state differs from the previous one and `none` otherwise; `update s s` is
always `none`, both genuine transitions are signalled, and the loop body
emits exactly when `update` signals a change.  `update` is a total Lean
function, hence pure with no failure modes. -/
theorem c2_debouncer (emitFn : String → String → Bool) (p o s flg obs : Bool) :
    (update s s = none) ∧
    (update true false = some false) ∧
    (update false true = some true) ∧
    (update p o = some o ↔ o ≠ p) ∧
    (update p o = none ↔ o = p) ∧
    ((linuxStep emitFn true flg (Except.ok obs)).emitted ≠ [] ↔
      update flg obs ≠ none) := by
  cases p <;> cases o <;> cases s <;> cases flg <;> cases obs <;>
    simp [update, linuxStep]

/-- C3 counterexample: the claim says a monitor task whose emission finds
the SessionHandle unset continues to its next iteration, but the Linux loop
executes `break`: on a transition observed with the handle unset the step's
continue flag is `false`, so the task terminates. -/
theorem c3_counterexample :
    ¬ ((linuxStep (fun _ _ => true) false false (Except.ok true)).keepGoing = true) := by
  decide

/-- C3 (amended): when emission is attempted while the SessionHandle is
unset, no publish is performed and the transition is dropped (not queued,
not retried) in every variant; the Windows task continues to the next
message, but the Linux and macOS tasks log a warning and terminate
(`break`) instead of continuing. -/
theorem c3_amended_sink_not_ready (emitFn : String → String → Bool) (flg obs : Bool)
    (dict : List (String × String)) (m : WinMsg) (msgs : List WinMsg) :
    ((linuxStep emitFn false flg (Except.ok obs)).emitted = []) ∧
    (flg ≠ obs → linuxStep emitFn false flg (Except.ok obs) = ⟨obs, [], false⟩) ∧
    ((macosStep emitFn false flg dict).emitted = []) ∧
    (flg ≠ classifyDict dict →
      macosStep emitFn false flg dict = ⟨classifyDict dict, [], false⟩) ∧
    (windowsStep emitFn false m = []) ∧
    (windowsRun emitFn false (m :: msgs) =
      windowsStep emitFn false m ++ windowsRun emitFn false msgs) := by
  refine ⟨?_, ?_, ?_, ?_, ?_, rfl⟩
  · cases flg <;> cases obs <;> simp [linuxStep]
  · intro hne; cases flg <;> cases obs <;> simp_all [linuxStep]
  · rw [macosStep_eq_linuxStep]
    cases flg <;> cases hc : classifyDict dict <;> simp [linuxStep, hc]
  · intro hne
    rw [macosStep_eq_linuxStep]
    cases flg <;> cases hc : classifyDict dict <;> simp_all [linuxStep]
  · unfold windowsStep; split_ifs <;> simp_all

/-- C4: every source failure of the Linux monitor — connection
establishment, proxy creation, property read, or the change stream ending —
makes the loop `break`: the inputs after the first failure are never
consumed, nothing is emitted for them, the failing iteration itself emits
nothing, and the run ends in the terminated state. -/
theorem c4_terminal_on_failure (emitFn : String → String → Bool)
    (handleSet flg : Bool) (pre post : List (Except SourceError Bool))
    (err : SourceError) :
    (linuxRun emitFn handleSet flg (pre ++ Except.error err :: post) =
      linuxRun emitFn handleSet flg (pre ++ [Except.error err])) ∧
    ((linuxRun emitFn handleSet flg (pre ++ [Except.error err])).running = false) ∧
    ((linuxStep emitFn handleSet flg (Except.error err)).emitted = []) := by
  refine ⟨(linuxRun_stops_at_error emitFn handleSet err post pre flg).1,
    (linuxRun_stops_at_error emitFn handleSet err post pre flg).2, rfl⟩

/-- C5: every event any variant ever emits — per step and over whole runs —
uses the fixed name `"window_screen_lock_status://change_session_status"`,
and its payload is exactly `"lock"` or `"unlock"`; in the debounced variants
the payload is `"lock"` precisely when the new remembered state is locked. -/
theorem c5_event_shape (emitFn : String → String → Bool) (h flg : Bool)
    (input : Except SourceError Bool) (dict : List (String × String)) (m : WinMsg)
    (inputs : List (Except SourceError Bool)) (dicts : List (List (String × String)))
    (msgs : List WinMsg) (e : Emission) :
    (e ∈ (linuxStep emitFn h flg input).emitted →
      e.name = eventName ∧ e.payload = payloadOf (linuxStep emitFn h flg input).flg) ∧
    (e ∈ (macosStep emitFn h flg dict).emitted →
      e.name = eventName ∧ e.payload = payloadOf (macosStep emitFn h flg dict).flg) ∧
    (e ∈ windowsStep emitFn h m →
      e.name = eventName ∧ (e.payload = "lock" ∨ e.payload = "unlock")) ∧
    (e ∈ (linuxRun emitFn h flg inputs).events →
      e.name = eventName ∧ (e.payload = "lock" ∨ e.payload = "unlock")) ∧
    (e ∈ (macosRun emitFn h flg dicts).events →
      e.name = eventName ∧ (e.payload = "lock" ∨ e.payload = "unlock")) ∧
    (e ∈ windowsRun emitFn h msgs →
      e.name = eventName ∧ (e.payload = "lock" ∨ e.payload = "unlock")) := by
  refine ⟨linuxStep_emitted_shape emitFn h flg input e, ?_, windowsStep_shape emitFn h m e,
    linuxRun_events_shape emitFn h inputs flg e, ?_, windowsRun_shape emitFn h msgs e⟩
  · rw [macosStep_eq_linuxStep]
    exact linuxStep_emitted_shape emitFn h flg (Except.ok (classifyDict dict)) e
  · rw [macosRun_eq_linuxRun]
    exact linuxRun_events_shape emitFn h _ flg e

/-- C6: the remembered LockState starts at `false` (both debounced loops
begin with `let mut flg = false;`, and the spawned task runs from `false`),
and for the observation sequence `[true, true, false]` with the handle set
the task emits `"lock"`, then nothing, then `"unlock"`, ending with
remembered state `false`; the macOS loop behaves identically on dictionary
snapshots containing, containing, and lacking the lock key. -/
theorem c6_scenario (emitFn : String → String → Bool)
    (inputs : List (Except SourceError Bool)) :
    (linuxRun emitFn true false [Except.ok true, Except.ok true, Except.ok false] =
      ⟨false, [⟨eventName, "lock"⟩, ⟨eventName, "unlock"⟩], true⟩) ∧
    (macosRun emitFn true false [[(cgsLockKey, "1")], [(cgsLockKey, "1")], []] =
      ⟨false, [⟨eventName, "lock"⟩, ⟨eventName, "unlock"⟩], true⟩) ∧
    (runTask emitFn true (TaskInputs.linux inputs) =
      (linuxRun emitFn true false inputs).events) := by
  refine ⟨rfl, ?_, rfl⟩
  rw [macosRun_eq_linuxRun]
  have hc1 : classifyDict [(cgsLockKey, "1")] = true := by
    simp [classifyDict, List.lookup]
  have hc0 : classifyDict ([] : List (String × String)) = false := rfl
  simp only [List.map_cons, List.map_nil, hc1, hc0]
  rfl

/-- C7: the macOS classification of a session-dictionary snapshot is locked
exactly when the lock-indicator key `"CGSSessionScreenIsLocked"` is present
(whatever value it maps to — transforming every value leaves the
classification unchanged) and unlocked exactly when the key is absent; each
macOS iteration classifies its own fresh snapshot this way. -/
theorem c7_classify_by_presence {V W : Type} (dict : List (String × V)) (f : V → W)
    (v : V) (emitFn : String → String → Bool) (h flg : Bool)
    (d : List (String × String)) :
    (classifyDict dict = true ↔ cgsLockKey ∈ dict.map Prod.fst) ∧
    (classifyDict dict = false ↔ ¬ cgsLockKey ∈ dict.map Prod.fst) ∧
    (classifyDict (dict.map (fun p => (p.1, f p.2))) = classifyDict dict) ∧
    (classifyDict ((cgsLockKey, v) :: dict) = true) ∧
    (classifyDict ([] : List (String × V)) = false) ∧
    (macosStep emitFn h flg d = linuxStep emitFn h flg (Except.ok (classifyDict d))) := by
  refine ⟨classifyDict_true_iff dict, ?_, classifyDict_map f dict, ?_, rfl,
    macosStep_eq_linuxStep emitFn h flg d⟩
  · rw [← classifyDict_true_iff dict]
    cases classifyDict dict <;> simp
  · simp [classifyDict, List.lookup]

/-- C8: the initialization entry point is a total function: for every
environment it returns the plugin handle built as
`Builder::new("window_screen_lock_status").build()`, spawns exactly one
background monitor task (the variant for the target OS), and the value the
caller receives is the same whatever inputs — including failures — that
task later encounters. -/
theorem c8_init_total (emitFn : String → String → Bool) (h : Bool)
    (ti ti' : TaskInputs) :
    ((ScreenLock.init emitFn h ti).1 = ⟨"window_screen_lock_status"⟩) ∧
    ((ScreenLock.init emitFn h ti).2.length = 1) ∧
    ((ScreenLock.init emitFn h ti).1 = (ScreenLock.init emitFn h ti').1) := by
  exact ⟨rfl, rfl, rfl⟩

/-- C9: in the Linux and macOS loop bodies the remembered state is assigned
the observed value before `WINDOW_TAURI.get()` is consulted: even with the
handle unset the step's resulting state equals the observed value while
nothing is emitted, and a later step from that recorded state observing the
same value emits nothing — the missed transition is never re-emitted, even
once a handle is available. -/
theorem c9_state_before_handle (emitFn emitFn2 : String → String → Bool)
    (h2 flg obs : Bool) (dict : List (String × String)) :
    ((linuxStep emitFn false flg (Except.ok obs)).flg = obs) ∧
    ((linuxStep emitFn false flg (Except.ok obs)).emitted = []) ∧
    ((linuxStep emitFn2 h2 obs (Except.ok obs)).emitted = []) ∧
    ((macosStep emitFn false flg dict).flg = classifyDict dict) ∧
    ((macosStep emitFn false flg dict).emitted = []) ∧
    ((macosStep emitFn2 h2 (classifyDict dict) dict).emitted = []) := by
  rw [macosStep_eq_linuxStep, macosStep_eq_linuxStep]
  cases flg <;> cases obs <;> cases h2 <;> cases hc : classifyDict dict <;>
    simp [linuxStep]

/-- C10: every loop body discards the result of `handle.emit`
(`let _ = handle.emit(..)`): replacing the sink by one whose publishes fail
changes nothing — per step and over whole runs, the remembered state, the
emissions attempted, and whether the task keeps running are identical. -/
theorem c10_emit_result_discarded (emitFn emitFn2 : String → String → Bool)
    (h flg : Bool) (input : Except SourceError Bool) (dict : List (String × String))
    (m : WinMsg) (inputs : List (Except SourceError Bool))
    (dicts : List (List (String × String))) (msgs : List WinMsg) :
    (linuxStep emitFn h flg input = linuxStep emitFn2 h flg input) ∧
    (macosStep emitFn h flg dict = macosStep emitFn2 h flg dict) ∧
    (windowsStep emitFn h m = windowsStep emitFn2 h m) ∧
    (linuxRun emitFn h flg inputs = linuxRun emitFn2 h flg inputs) ∧
    (macosRun emitFn h flg dicts = macosRun emitFn2 h flg dicts) ∧
    (windowsRun emitFn h msgs = windowsRun emitFn2 h msgs) := by
  have hstep : ∀ (f : Bool) (i : Except SourceError Bool),
      linuxStep emitFn h f i = linuxStep emitFn2 h f i := by
    intro f i; cases i <;> rfl
  have hrun : ∀ (is : List (Except SourceError Bool)) (f : Bool),
      linuxRun emitFn h f is = linuxRun emitFn2 h f is := by
    intro is
    induction is with
    | nil => intro f; rfl
    | cons i rest ih => intro f; simp [linuxRun, hstep, ih]
  have hwstep : ∀ mm : WinMsg, windowsStep emitFn h mm = windowsStep emitFn2 h mm := by
    intro mm; rfl
  have hwrun : ∀ ms : List WinMsg, windowsRun emitFn h ms = windowsRun emitFn2 h ms := by
    intro ms
    induction ms with
    | nil => rfl
    | cons mm rest ih => simp [windowsRun, hwstep, ih]
  refine ⟨hstep flg input, ?_, hwstep m, hrun inputs flg, ?_, hwrun msgs⟩
  · rw [macosStep_eq_linuxStep, macosStep_eq_linuxStep, hstep]
  · rw [macosRun_eq_linuxRun, macosRun_eq_linuxRun, hrun]

end ScreenLock
